import Mathlib

/-!
Verification of the NonSteamManager resumable multi-file transfer core.

Server side (`DownloadServer.py`): the progress resolver
`_get_start_file_index`, the range-delivery endpoint `download_file` with
`_send_partial_file`, and the continuous-stream generator `file_stream`.
Client side (`downloader.py`): the resumable `download_game` loop with its
ledger file `.download_progress.json`.

Conventions of the embedding:
* Python `float` arithmetic is modelled by exact rational arithmetic (`ℚ`);
  `int(x)` on the non-negative quantities that occur here is `Int.floor`.
* File bytes are `List Nat`; only lengths and positions matter to the claims.
* `pathlib` pure paths are a flag for absoluteness plus the list of segments;
  `PurePath` never normalises `..`, while the operating system does, so the
  embedding keeps both views (`pyJoin`/`pyRelativeTo` are lexical,
  `resolveSegs` is the OS view used to look a file up on disk).
* The client run is embedded as the list of externally visible micro events
  (network requests, byte appends, counter increments, ledger file writes,
  progress reports); a crash is executing only a prefix of that list.
-/

/-- One entry of a game catalog: relative path and declared size. -/
structure FileInfo where
  path : String
  size : Nat
deriving DecidableEq, Repr, Inhabited

/-- Embedding of `GameDownloadServer._get_start_file_index`: convert a
progress percentage into a `(file index, byte offset)` resume point.
Mirrors the source line by line; Python floats are exact rationals here. -/
def get_start_file_index (files : List FileInfo) (progress : ℚ) : Nat × Nat :=
  if files.isEmpty then (0, 0)
  else if progress ≤ 0 then (0, 0)
  else if 100 ≤ progress then (files.length, 0)
  else
    let totalFiles : Nat := files.length
    let progressPerFile : ℚ := 100 / (totalFiles : ℚ)
    let fileIndex0 : Nat := (⌊progress / progressPerFile⌋).toNat
    let fileIndex : Nat := if totalFiles ≤ fileIndex0 then totalFiles - 1 else fileIndex0
    let fileProgress : ℚ := progress - (fileIndex : ℚ) * progressPerFile
    let filePct : ℚ := fileProgress / progressPerFile
    if 95 / 100 ≤ filePct then
      (fileIndex + 1, 0)
    else
      (fileIndex, (⌊((files.getD fileIndex default).size : ℚ) * filePct⌋).toNat)

/-- The two-file catalog of the spec's concrete scenarios. -/
def exCatalog : List FileInfo := [⟨"a.bin", 100⟩, ⟨"b.bin", 300⟩]

/-- The clamped equal-share file index the spec describes:
`floor(progressPercent / share)` clamped to `fileCount - 1`. -/
def shareIndex (files : List FileInfo) (p : ℚ) : Nat :=
  min ((⌊p / (100 / (files.length : ℚ))⌋).toNat) (files.length - 1)

/-- The fractional position of `p` inside file `i`'s equal share. -/
def shareFraction (files : List FileInfo) (p : ℚ) (i : Nat) : ℚ :=
  (p - (i : ℚ) * (100 / (files.length : ℚ))) / (100 / (files.length : ℚ))

/-- Unfolding of the resolver in the interesting region `0 < p < 100`,
nonempty file list. -/
theorem get_start_file_index_main (files : List FileInfo) (p : ℚ)
    (hne : files ≠ []) (h0 : ¬ p ≤ 0) (h100 : ¬ 100 ≤ p) :
    get_start_file_index files p =
      (if 95 / 100 ≤ shareFraction files p (shareIndex files p) then
        (shareIndex files p + 1, 0)
      else
        (shareIndex files p,
          (⌊((files.getD (shareIndex files p) default).size : ℚ) *
            shareFraction files p (shareIndex files p)⌋).toNat)) := by
  have hemp : files.isEmpty = false := by
    simpa [List.isEmpty_iff] using hne
  have hidx : (if files.length ≤ (⌊p / (100 / (files.length : ℚ))⌋).toNat then
      files.length - 1 else (⌊p / (100 / (files.length : ℚ))⌋).toNat) =
      shareIndex files p := by
    unfold shareIndex
    rcases le_or_lt files.length ((⌊p / (100 / (files.length : ℚ))⌋).toNat) with h | h
    · rw [if_pos h, Nat.min_eq_right]
      omega
    · rw [if_neg (by omega), Nat.min_eq_left]
      omega
  unfold get_start_file_index
  rw [if_neg (by simp [hemp]), if_neg h0, if_neg h100]
  simp only [shareFraction, hidx]

/-- C1: for a non-empty file list and `0 < progressPercent < 100`, when the
skip-ahead case does not apply the resolver returns the clamped equal-share
index `floor(p / (100/fileCount))` (clamped to `fileCount - 1`) together with
`floor(fileSize * fileFraction)`; `p ≤ 0` yields `(0, 0)`; `p ≥ 100` or an
empty file list yields `(fileCount, 0)`; on the two-file example catalog,
progress 60 resolves to `(1, 60)`. -/
theorem C1_progress_resolver_formula (files : List FileInfo) (p : ℚ) :
    (p ≤ 0 → get_start_file_index files p = (0, 0)) ∧
    (100 ≤ p ∨ files = [] → get_start_file_index files p = (files.length, 0)) ∧
    (files ≠ [] → 0 < p → p < 100 →
      shareFraction files p (shareIndex files p) < 95 / 100 →
      get_start_file_index files p =
        (shareIndex files p,
          (⌊((files.getD (shareIndex files p) default).size : ℚ) *
            shareFraction files p (shareIndex files p)⌋).toNat)) ∧
    get_start_file_index exCatalog 60 = (1, 60) := by
  refine ⟨?_, ?_, ?_, ?_⟩
  · intro hp
    unfold get_start_file_index
    rcases Bool.eq_false_or_eq_true files.isEmpty with h | h
    · rw [if_pos (by simp [h])]
    · rw [if_neg (by simp [h]), if_pos hp]
  · rintro (hp | rfl)
    · rcases Bool.eq_false_or_eq_true files.isEmpty with h | h
      · have : files = [] := by simpa [List.isEmpty_iff] using h
        subst this
        rfl
      · unfold get_start_file_index
        rw [if_neg (by simp [h]), if_neg (by linarith), if_pos hp]
    · rfl
  · intro hne h0 h100 hfrac
    rw [get_start_file_index_main files p hne (by linarith) (by linarith),
      if_neg (by linarith)]
  · norm_num [get_start_file_index, exCatalog]
    decide

/-- Witness for C1: the hypotheses are satisfiable; instantiating the theorem
on the example catalog at progress 0, 100 and 60 produces the claimed
outputs. -/
theorem C1_progress_resolver_formula_witness :
    get_start_file_index exCatalog 0 = (0, 0) ∧
    get_start_file_index exCatalog 100 = (2, 0) ∧
    get_start_file_index exCatalog 60 = (1, 60) := by
  refine ⟨(C1_progress_resolver_formula exCatalog 0).1 le_rfl,
    (C1_progress_resolver_formula exCatalog 100).2.1 (Or.inl le_rfl),
    ?_⟩
  have h := (C1_progress_resolver_formula exCatalog 60).2.2.1
    (by decide) (by norm_num) (by norm_num) ?_
  · rw [h]
    norm_num [shareIndex, shareFraction, exCatalog]
    decide
  · norm_num [shareIndex, shareFraction, exCatalog]

/-- C2: in the skip-ahead case (`fileFraction ≥ 0.95`) the resolver advances
to `(i + 1, 0)` and in particular never reports index `i`; on the example
catalog, progress 49 resolves to `(1, 0)`. -/
theorem C2_skip_ahead (files : List FileInfo) (p : ℚ) :
    (files ≠ [] → 0 < p → p < 100 →
      95 / 100 ≤ shareFraction files p (shareIndex files p) →
      get_start_file_index files p = (shareIndex files p + 1, 0) ∧
      (get_start_file_index files p).1 ≠ shareIndex files p) ∧
    get_start_file_index exCatalog 49 = (1, 0) := by
  constructor
  · intro hne h0 h100 hfrac
    rw [get_start_file_index_main files p hne (by linarith) (by linarith),
      if_pos hfrac]
    exact ⟨rfl, Nat.succ_ne_self _⟩
  · norm_num [get_start_file_index, exCatalog]

/-- Witness for C2: progress 49 on the example catalog satisfies the
skip-ahead hypotheses and yields `(1, 0)`. -/
theorem C2_skip_ahead_witness :
    get_start_file_index exCatalog 49 = (1, 0) ∧
    (get_start_file_index exCatalog 49).1 ≠ 0 := by
  have h := (C2_skip_ahead exCatalog 49).1
    (by decide) (by norm_num) (by norm_num) ?_
  · have hi : shareIndex exCatalog 49 = 0 := by
      norm_num [shareIndex, exCatalog]
    rw [hi] at h
    exact ⟨h.1, h.1 ▸ (by decide)⟩
  · norm_num [shareIndex, shareFraction, exCatalog]

/-- A `pathlib` pure path: whether it is absolute, plus its segments.
`PurePath` keeps `..` segments verbatim (it never normalises them). -/
structure PyPath where
  absolute : Bool
  segments : List String
deriving DecidableEq, Repr

/-- `pathlib` path joining (`game_dir / file_path`): an absolute right-hand
side replaces the left-hand side, otherwise segments are concatenated.
No `..` resolution happens here, exactly as in `pathlib`. -/
def pyJoin (a b : PyPath) : PyPath :=
  if b.absolute then b else ⟨a.absolute, a.segments ++ b.segments⟩

/-- `PurePath.relative_to`: purely lexical. It succeeds precisely when the
other path's segment list literally starts with the base's segment list,
again without any `..` resolution; `none` models the `ValueError`. -/
def pyRelativeTo (p base : PyPath) : Option (List String) :=
  if p.absolute = base.absolute ∧
      p.segments.take base.segments.length = base.segments then
    some (p.segments.drop base.segments.length)
  else none

/-- The operating-system view of a segment list: `..` pops the previous
segment (at the root it is dropped), which is how the filesystem actually
interprets the path the server opens. -/
def resolveSegs (segs : List String) : List String :=
  segs.foldl (fun acc s => if s = ".." then acc.dropLast else acc ++ [s]) []

/-- The OS-resolved location a `PyPath` denotes on disk. -/
def osPath (p : PyPath) : PyPath :=
  ⟨p.absolute, resolveSegs p.segments⟩

/-- Resolved path `q` lies strictly inside (or at) directory `root`. -/
def descendantOf (q root : PyPath) : Prop :=
  q.absolute = root.absolute ∧
    q.segments.take root.segments.length = root.segments

instance (q root : PyPath) : Decidable (descendantOf q root) := by
  unfold descendantOf
  infer_instance

/-- Responses of the range-delivery endpoint that the claims distinguish. -/
inductive HttpResponse where
  /-- 403, the path containment check failed. -/
  | forbidden
  /-- 404, no file at the resolved location. -/
  | notFound
  /-- 416, offset at or past the end of the file. -/
  | rangeNotSatisfiable
  /-- 200 `FileResponse` with its `Content-Length` header and full body. -/
  | fullFile (contentLength : Nat) (body : List Nat)
  /-- 206 with `Content-Range: bytes start-stop/total`, `Content-Length`,
  and the streamed chunk list. -/
  | partialContent (rangeStart rangeStop rangeTotal contentLength : Nat)
      (chunks : List (List Nat))
deriving DecidableEq, Repr

/-- The chunked read loop of `_send_partial_file.file_iterator`: seek to
`pos`, then repeatedly read `min 65536 remaining` bytes until `remaining`
is exhausted or a read comes back empty. Structured with a fuel argument
(`remaining` itself bounds the number of iterations). -/
def file_iterator_go (content : List Nat) : Nat → Nat → Nat → List (List Nat)
  | 0, _, _ => []
  | fuel + 1, pos, remaining =>
    if remaining = 0 then []
    else
      let chunk := (content.drop pos).take (min 65536 remaining)
      if chunk.isEmpty then []
      else chunk :: file_iterator_go content fuel (pos + chunk.length)
        (remaining - chunk.length)

/-- The chunk sequence `_send_partial_file` streams for a file read from
offset `pos` with `remaining` bytes outstanding. -/
def file_iterator (content : List Nat) (pos remaining : Nat) : List (List Nat) :=
  file_iterator_go content remaining pos remaining

/-- Embedding of `GameDownloadServer._send_partial_file`. -/
def send_partial_file (content : List Nat) (offset fileSize : Nat) : HttpResponse :=
  if fileSize ≤ offset then .rangeNotSatisfiable
  else .partialContent offset (fileSize - 1) fileSize (fileSize - offset)
    (file_iterator content offset (fileSize - offset))

/-- Embedding of the `download_file` endpoint body (after the API-key and
game-id checks): join the game directory with the request path, run the
lexical `relative_to` containment check, look the OS-resolved path up on
disk, then dispatch on the offset. `fs` is the filesystem, mapping an
OS-resolved path to the file's bytes when a regular file exists there. -/
def download_file (fs : PyPath → Option (List Nat)) (gameDir : PyPath)
    (filePath : PyPath) (offset : Nat) : HttpResponse :=
  let fullPath := pyJoin gameDir filePath
  match pyRelativeTo fullPath gameDir with
  | none => .forbidden
  | some _ =>
    match fs (osPath fullPath) with
    | none => .notFound
    | some content =>
      let fileSize := content.length
      if fileSize ≤ offset then .rangeNotSatisfiable
      else if 0 < offset then send_partial_file content offset fileSize
      else .fullFile fileSize content

/-- Joining the chunks of the read loop recovers exactly the bytes of the
file from the seek position to the end. -/
theorem file_iterator_go_join (content : List Nat) :
    ∀ fuel pos remaining : Nat, remaining ≤ fuel →
      pos + remaining = content.length →
      (file_iterator_go content fuel pos remaining).flatten = content.drop pos := by
  intro fuel
  induction fuel with
  | zero =>
    intro pos remaining hle hlen
    have hrem : remaining = 0 := Nat.le_zero.mp hle
    subst hrem
    simp only [file_iterator_go, List.flatten_nil]
    exact (List.drop_eq_nil_of_le (by omega)).symm
  | succ fuel ih =>
    intro pos remaining hle hlen
    by_cases hrem : remaining = 0
    · subst hrem
      simp only [file_iterator_go, if_pos rfl, List.flatten_nil]
      exact (List.drop_eq_nil_of_le (by omega)).symm
    · have hdroplen : (content.drop pos).length = remaining := by
        rw [List.length_drop]
        omega
      have hchunklen : ((content.drop pos).take (min 65536 remaining)).length =
          min 65536 remaining := by
        rw [List.length_take, hdroplen]
        omega
      have hpos' : 0 < min 65536 remaining := by omega
      have hne : ((content.drop pos).take (min 65536 remaining)).isEmpty = false := by
        rw [List.isEmpty_eq_false_iff_exists_mem]
        rcases List.exists_mem_of_length_pos (l := (content.drop pos).take (min 65536 remaining))
          (by omega) with ⟨x, hx⟩
        exact ⟨x, hx⟩
      simp only [file_iterator_go, if_neg hrem, hne, Bool.false_eq_true, if_false,
        List.flatten_cons, hchunklen]
      rw [ih (pos + min 65536 remaining) (remaining - min 65536 remaining)
        (by omega) (by omega)]
      have hdd : content.drop (pos + min 65536 remaining) =
          (content.drop pos).drop (min 65536 remaining) := by
        rw [List.drop_drop]
      rw [hdd, List.take_append_drop]

/-- `file_iterator` streams precisely the suffix of the file that starts at
the requested offset. -/
theorem file_iterator_join (content : List Nat) (offset : Nat)
    (h : offset ≤ content.length) :
    (file_iterator content offset (content.length - offset)).flatten =
      content.drop offset := by
  exact file_iterator_go_join content _ offset _ le_rfl (by omega)

/-- C4: for an existing file under a known game and request offset `O`:
`O ≥ size` answers 416 and never a 200; `O = 0` (with a non-empty file, the
case 416 does not intercept) answers 200 with `Content-Length = size` and the
full body; `0 < O < size` answers 206 with
`Content-Range: bytes O-(size-1)/size`, `Content-Length = size - O`, and a
chunked body equal to the file's bytes from `O` to the end. -/
theorem C4_range_delivery (fs : PyPath → Option (List Nat))
    (gameDir filePath : PyPath) (offset : Nat) (content : List Nat)
    (rel : List String)
    (hrel : pyRelativeTo (pyJoin gameDir filePath) gameDir = some rel)
    (hfs : fs (osPath (pyJoin gameDir filePath)) = some content) :
    (content.length ≤ offset →
      download_file fs gameDir filePath offset = .rangeNotSatisfiable) ∧
    (offset = 0 → 0 < content.length →
      download_file fs gameDir filePath offset =
        .fullFile content.length content) ∧
    (0 < offset → offset < content.length →
      ∃ chunks,
        download_file fs gameDir filePath offset =
          .partialContent offset (content.length - 1) content.length
            (content.length - offset) chunks ∧
        chunks.flatten = content.drop offset) := by
  refine ⟨?_, ?_, ?_⟩
  · intro hge
    simp only [download_file, hrel, hfs]
    rw [if_pos hge]
  · intro h0 hpos
    subst h0
    simp only [download_file, hrel, hfs]
    rw [if_neg (by omega), if_neg (by omega)]
  · intro h0 hlt
    refine ⟨file_iterator content offset (content.length - offset), ?_, ?_⟩
    · simp only [download_file, hrel, hfs, send_partial_file]
      rw [if_neg (by omega), if_pos h0, if_neg (by omega)]
    · exact file_iterator_join content offset (by omega)

/-- The game root used in the concrete range-delivery scenarios. -/
def exRoot : PyPath := ⟨true, ["srv", "games", "g"]⟩

/-- A well-behaved relative request path. -/
def exReq : PyPath := ⟨false, ["data", "a.bin"]⟩

/-- A filesystem with a three-byte file at the requested location and a
zero-byte file next to it. -/
def exFs : PyPath → Option (List Nat) := fun p =>
  if p = ⟨true, ["srv", "games", "g", "data", "a.bin"]⟩ then some [10, 20, 30]
  else if p = ⟨true, ["srv", "games", "g", "data", "empty.bin"]⟩ then some []
  else none

/-- Witness for C4: the three cases on a concrete three-byte file. -/
theorem C4_range_delivery_witness :
    download_file exFs exRoot exReq 5 = .rangeNotSatisfiable ∧
    download_file exFs exRoot exReq 0 = .fullFile 3 [10, 20, 30] ∧
    ∃ chunks,
      download_file exFs exRoot exReq 1 = .partialContent 1 2 3 2 chunks ∧
      chunks.flatten = [20, 30] := by
  refine ⟨(C4_range_delivery exFs exRoot exReq 5 [10, 20, 30] ["data", "a.bin"]
      (by decide) (by decide)).1 (by decide),
    (C4_range_delivery exFs exRoot exReq 0 [10, 20, 30] ["data", "a.bin"]
      (by decide) (by decide)).2.1 rfl (by decide), ?_⟩
  have h := (C4_range_delivery exFs exRoot exReq 1 [10, 20, 30] ["data", "a.bin"]
    (by decide) (by decide)).2.2 (by decide) (by decide)
  simpa using h

/-- C9: a zero-byte file served at offset 0 hits the `offset >= fileSize`
check first (`0 >= 0`), so the endpoint answers 416, not a full 200. -/
theorem C9_zero_byte_range_error (fs : PyPath → Option (List Nat))
    (gameDir filePath : PyPath) (rel : List String)
    (hrel : pyRelativeTo (pyJoin gameDir filePath) gameDir = some rel)
    (hfs : fs (osPath (pyJoin gameDir filePath)) = some []) :
    download_file fs gameDir filePath 0 = .rangeNotSatisfiable := by
  simp only [download_file, hrel, hfs]
  rw [if_pos (by simp)]

/-- Witness for C9: the concrete zero-byte file `data/empty.bin`. -/
theorem C9_zero_byte_range_error_witness :
    download_file exFs exRoot ⟨false, ["data", "empty.bin"]⟩ 0 =
      .rangeNotSatisfiable :=
  C9_zero_byte_range_error exFs exRoot ⟨false, ["data", "empty.bin"]⟩
    ["data", "empty.bin"] (by decide) (by decide)

/-- A request path carrying a traversal segment. -/
def traversalReq : PyPath := ⟨false, ["..", "secret.bin"]⟩

/-- A filesystem whose only file sits OUTSIDE the game root, at the
OS-resolved location `/srv/games/secret.bin` that `g/../secret.bin`
actually denotes. -/
def leakedFs : PyPath → Option (List Nat) := fun p =>
  if p = ⟨true, ["srv", "games", "secret.bin"]⟩ then some [1, 2, 3] else none

/-- C3 is FALSE on the code: `download_file` builds `game_dir / file_path`
and checks containment with the lexical `Path.relative_to`, which never
resolves `..`; the joined path `/srv/games/g/../secret.bin` literally starts
with the root's segments, so the check passes even though the OS-resolved
location `/srv/games/secret.bin` is not a descendant of the root, and the
endpoint serves the file's bytes with a 200 instead of answering 403. -/
theorem C3_traversal_served_not_forbidden :
    traversalReq.segments.contains ".." = true ∧
    ¬ descendantOf (osPath (pyJoin exRoot traversalReq)) exRoot ∧
    pyRelativeTo (pyJoin exRoot traversalReq) exRoot =
      some ["..", "secret.bin"] ∧
    download_file leakedFs exRoot traversalReq 0 = .fullFile 3 [1, 2, 3] ∧
    download_file leakedFs exRoot traversalReq 0 ≠ .forbidden := by
  refine ⟨by decide, by decide, by decide, by decide, by decide⟩

/-- One `yield` of the stream generator: either a framing line of the
boundary marker or a chunk of file bytes. -/
inductive SChunk where
  /-- the literal `--FILE_BOUNDARY--` delimiter line -/
  | boundaryDelim
  /-- the `Filename:` line -/
  | filenameLine (path : String)
  /-- the `Size:` line (the declared catalog size) -/
  | sizeLine (size : Nat)
  /-- the literal `--FILE_CONTENT--` content-start delimiter line -/
  | contentDelim
  /-- one chunk of file bytes -/
  | data (bytes : List Nat)
deriving DecidableEq, Repr

/-- Outcome of running the generator to completion: either the whole chunk
list, or an `UnboundLocalError` raised after having emitted a prefix. -/
inductive StreamOut where
  | ok (chunks : List SChunk)
  | unboundLocal (emitted : List SChunk)
deriving DecidableEq, Repr

/-- The chunks `await f.read(chunk_size)` yields for a file suffix: full
`chunkSize`-byte pieces followed by the remainder. -/
def chunkifyBytes (bs : List Nat) (chunkSize : Nat) : List (List Nat) :=
  (List.range ((bs.length + chunkSize - 1) / chunkSize)).map
    (fun i => (bs.drop (i * chunkSize)).take chunkSize)

/-- The four framing lines emitted before a non-initial file segment. -/
def boundaryMarker (f : FileInfo) : List SChunk :=
  [.boundaryDelim, .filenameLine f.path, .sizeLine f.size, .contentDelim]

/-- Embedding of the `file_stream` generator of the stream endpoint,
iterating over `files[i:]` with `i` starting at `fileIndex`.

Python scoping detail carried over faithfully: the generator assigns
`file_offset = 0` at the bottom of its loop, which makes `file_offset` a
variable LOCAL to the generator; the read
`file_offset if i == file_index else 0` therefore raises
`UnboundLocalError` if it happens before the first assignment. The local is
modelled as `localOff : Option Nat`, `none` while still unassigned. -/
def file_stream_go (fs : String → Option (List Nat)) (chunkSize fileIndex : Nat) :
    List FileInfo → Nat → Option Nat → StreamOut
  | [], _, _ => .ok []
  | f :: rest, i, localOff =>
    match fs f.path with
    | none => file_stream_go fs chunkSize fileIndex rest (i + 1) localOff
    | some content =>
      match if i = fileIndex then localOff else some 0 with
      | none => .unboundLocal []
      | some startOffset =>
        let header : List SChunk :=
          if fileIndex < i ∨ 0 < startOffset then boundaryMarker f else []
        let dataChunks : List SChunk :=
          (chunkifyBytes (content.drop startOffset) chunkSize).map .data
        match file_stream_go fs chunkSize fileIndex rest (i + 1) (some 0) with
        | .ok cs => .ok (header ++ dataChunks ++ cs)
        | .unboundLocal cs => .unboundLocal (header ++ dataChunks ++ cs)

/-- The stream body produced for a game: run the generator from
`fileIndex` with the generator-local `file_offset` still unassigned. -/
def file_stream (fs : String → Option (List Nat)) (files : List FileInfo)
    (fileIndex chunkSize : Nat) : StreamOut :=
  file_stream_go fs chunkSize fileIndex (files.drop fileIndex) fileIndex none

/-- Embedding of the `/download/stream/{game_id}` endpoint around the
generator: resolve the starting point, 404 when nothing remains, otherwise
stream. (`none` is the 404.) -/
def stream_game_files (fs : String → Option (List Nat)) (files : List FileInfo)
    (progress : ℚ) (chunkSize : Nat) : Option StreamOut :=
  if files.isEmpty then none
  else
    let start := get_start_file_index files progress
    if 100 ≤ progress ∨ files.length ≤ start.1 then none
    else some (file_stream fs files start.1 chunkSize)

/-- C5 is FALSE on the code, which crashes instead of streaming: whenever
the starting file exists on disk, the generator's very first iteration
evaluates `file_offset if i == file_index else 0` with `i == file_index`,
and since `file_offset = 0` further down makes `file_offset` local to the
generator, this read raises `UnboundLocalError` before a single byte or
boundary is emitted. -/
theorem C5_stream_raises_unbound_local (fs : String → Option (List Nat))
    (files : List FileInfo) (fileIndex chunkSize : Nat)
    (h : fileIndex < files.length) (content : List Nat)
    (hfs : fs (files.get ⟨fileIndex, h⟩).path = some content) :
    file_stream fs files fileIndex chunkSize = .unboundLocal [] := by
  unfold file_stream
  rw [List.drop_eq_getElem_cons h]
  simp only [file_stream_go, List.get_eq_getElem] at *
  rw [hfs]
  simp

/-- Witness for C5: a one-file game whose file exists; the stream endpoint
at progress 0 reaches the generator and the generator raises at once. -/
theorem C5_stream_raises_unbound_local_witness :
    file_stream (fun p => if p = "a.bin" then some [5, 6] else none)
      [⟨"a.bin", 2⟩] 0 65536 = .unboundLocal [] ∧
    stream_game_files (fun p => if p = "a.bin" then some [5, 6] else none)
      [⟨"a.bin", 2⟩] 0 65536 = some (.unboundLocal []) := by
  have h := C5_stream_raises_unbound_local
    (fun p => if p = "a.bin" then some [5, 6] else none)
    [⟨"a.bin", 2⟩] 0 65536 (by decide) [5, 6] (by decide)
  refine ⟨h, ?_⟩
  have hs : get_start_file_index [⟨"a.bin", 2⟩] 0 = (0, 0) := by
    norm_num [get_start_file_index]
  unfold stream_game_files
  rw [if_neg (by decide)]
  rw [hs]
  rw [if_neg (by norm_num)]
  rw [h]

/-- One ledger entry: declared size and bytes recorded as downloaded,
`{"size": ..., "downloaded": ...}` in `.download_progress.json`. -/
structure LedgerEntry where
  size : Nat
  downloaded : Nat
deriving DecidableEq, Repr, Inhabited

/-- The `file_status` mapping, an insertion-ordered dictionary from relative
path to its entry. -/
abbrev Ledger : Type := List (String × LedgerEntry)

/-- Dictionary lookup on the ledger (first entry with the key wins). -/
def lookupL : Ledger → String → Option LedgerEntry
  | [], _ => none
  | e :: L, p => if e.1 = p then some e.2 else lookupL L p

/-- The `downloaded` counter the ledger records for `p` (0 when untracked). -/
def memD (L : Ledger) (p : String) : Nat :=
  ((lookupL L p).map (fun e => e.downloaded)).getD 0

/-- `file_status[path]["downloaded"] += c`. -/
def bump (L : Ledger) (p : String) (c : Nat) : Ledger :=
  List.map (fun e => if e.1 = p then (e.1, ⟨e.2.size, e.2.downloaded + c⟩) else e) L

/-- `get_downloaded_total`: the sum of `downloaded` over EVERY ledger entry
(stale entries included). -/
def get_downloaded_total (L : Ledger) : Nat :=
  (List.map (fun e => e.2.downloaded) L).sum

/-- The loop that seeds `file_status` with `{"size": f.size, "downloaded": 0}`
for every catalog file not already tracked. -/
def initStatus (L : Ledger) : List FileInfo → Ledger
  | [] => L
  | f :: fs =>
    initStatus
      (if (lookupL L f.path).isSome then L
       else L ++ [(f.path, ⟨f.size, 0⟩)]) fs

/-- The on-disk ledger file: absent, syntactically unparseable (as a crash
between the truncating open and the completed `json.dump` leaves it), or
holding a parseable mapping. -/
inductive LFile where
  | absent
  | invalid
  | content (L : Ledger)
deriving DecidableEq

/-- `json.load` on the ledger file: only a completed write parses. -/
def parseLedger : LFile → Option Ledger
  | .content L => some L
  | _ => none

/-- Ledger loading in `download_game`: a missing file or a parse failure
both produce the empty mapping (`except: file_status = {}`). -/
def loadLedger (f : LFile) : Ledger :=
  (parseLedger f).getD []

/-- Externally visible micro events of one `download_game` run, in program
order. A crash at any moment is modelled by executing only a prefix. -/
inductive Ev where
  /-- the catalog fetch `GET /games/{id}` -/
  | catalogReq
  /-- `progress_callback(done, total)` -/
  | progress (done total : Nat)
  /-- `status_callback(msg)` -/
  | status (msg : String)
  /-- `GET /download/file/{id}/{path}?offset={off}` -/
  | fileReq (path : String) (offset : Nat)
  /-- append one received chunk of `n` bytes to the local file -/
  | write (path : String) (n : Nat)
  /-- then increment the in-memory ledger counter by `n` -/
  | record (path : String) (n : Nat)
  /-- `open(progress_file, "w")`: truncates the ledger file -/
  | truncateLedger
  /-- the completed `json.dump` of the mapping -/
  | writeLedger (L : Ledger)
  /-- `progress_file.unlink()` -/
  | deleteLedger
deriving DecidableEq

/-- Client-side state the events act on: the local files' byte lengths, the
in-memory `file_status` dictionary, and the on-disk ledger file. -/
structure DState where
  localLen : String → Nat
  mem : Ledger
  disk : LFile

/-- Effect of one event on the client state. -/
def applyEv (s : DState) : Ev → DState
  | .write p n =>
    { s with localLen := fun q => if q = p then s.localLen q + n else s.localLen q }
  | .record p n => { s with mem := bump s.mem p n }
  | .truncateLedger => { s with disk := .invalid }
  | .writeLedger L => { s with disk := .content L }
  | .deleteLedger => { s with disk := .absent }
  | _ => s

/-- Run a list of events from a state. -/
def runEvs (s : DState) (evs : List Ev) : DState :=
  List.foldl applyEv s evs

/-- The ledger save at the end of each file's loop body: a truncating open
followed by the dump. There is no temporary file in the source. -/
def saveLedgerEvents (L : Ledger) : List Ev :=
  [.truncateLedger, .writeLedger L]

/-- `iter_content(chunk_size=64*1024)` on a response of `n` bytes: the chunk
lengths received (full 64 KiB pieces, then the remainder). -/
def chunkLens (n : Nat) : List Nat :=
  List.replicate (n / 65536) 65536 ++ (if n % 65536 = 0 then [] else [n % 65536])

/-- Per-chunk events: write the chunk, bump the counter, then report
`progress_callback(get_downloaded_total(file_status), total_size)`. -/
def chunkEvents (total : Nat) (p : String) : Ledger → List Nat → List Ev × Ledger
  | st, [] => ([], st)
  | st, c :: cs =>
    let st' := bump st p c
    let rest := chunkEvents total p st' cs
    (.write p c :: .record p c :: .progress (get_downloaded_total st') total :: rest.1,
      rest.2)

/-- Events of one iteration of the per-file loop: skip a complete file
entirely, otherwise status message, offset request, chunk loop, and the
ledger save. `srv p` is the size of the file the server holds at `p`. -/
def perFileEvents (srv : String → Nat) (total : Nat) (st : Ledger)
    (f : FileInfo) : List Ev × Ledger :=
  let already := memD st f.path
  if f.size ≤ already then ([], st)
  else
    let res := chunkEvents total f.path st (chunkLens (srv f.path - already))
    (.status ("download: " ++ f.path) :: .fileReq f.path already ::
      (res.1 ++ saveLedgerEvents res.2), res.2)

/-- The whole per-file loop. -/
def filesEvents (srv : String → Nat) (total : Nat) :
    Ledger → List FileInfo → List Ev × Ledger
  | st, [] => ([], st)
  | st, f :: fs =>
    let r1 := perFileEvents srv total st f
    let r2 := filesEvents srv total r1.2 fs
    (r1.1 ++ r2.1, r2.2)

/-- Embedding of `download_game` as its event trace. Inputs: the catalog
file list the server returns, the server's file sizes, and the ledger
mapping loaded from disk. The boolean is `false` when the run raises
(`ValueError` on a zero total size, after the catalog request). -/
def download_game (files : List FileInfo) (srv : String → Nat)
    (L0 : Ledger) : List Ev × Bool :=
  let total := (List.map (fun f => f.size) files).sum
  if total = 0 then ([.catalogReq], false)
  else
    let st0 := initStatus L0 files
    let body := filesEvents srv total st0 files
    (.catalogReq :: .progress (get_downloaded_total st0) total :: body.1 ++
      [.deleteLedger, .status "download complete"], true)

/-- Appending never hides an existing key. -/
theorem lookupL_append_of_isSome (L L2 : Ledger) (q : String)
    (h : (lookupL L q).isSome = true) : lookupL (L ++ L2) q = lookupL L q := by
  induction L with
  | nil => simp [lookupL] at h
  | cons e L ih =>
    by_cases he : e.1 = q
    · simp [lookupL, he]
    · rw [List.cons_append]
      simp only [lookupL, he, if_false] at h ⊢
      exact ih h

/-- Looking a fresh key up runs off the end of the old ledger. -/
theorem lookupL_append_of_none (L L2 : Ledger) (q : String)
    (h : lookupL L q = none) : lookupL (L ++ L2) q = lookupL L2 q := by
  induction L with
  | nil => simp
  | cons e L ih =>
    by_cases he : e.1 = q
    · simp [lookupL, he] at h
    · simp only [lookupL, he, if_false] at h
      simpa [lookupL, he] using ih h

/-- `initStatus` only ever appends, so existing keys stay present. -/
theorem initStatus_keeps (fs : List FileInfo) :
    ∀ (L : Ledger) (q : String), (lookupL L q).isSome = true →
      (lookupL (initStatus L fs) q).isSome = true := by
  induction fs with
  | nil => intro L q h; exact h
  | cons f fs ih =>
    intro L q h
    unfold initStatus
    by_cases hf : (lookupL L f.path).isSome = true
    · rw [if_pos hf]; exact ih L q h
    · rw [if_neg hf]
      exact ih _ q (by rw [lookupL_append_of_isSome L _ q h]; exact h)

/-- After seeding, every catalog path is tracked. -/
theorem initStatus_keys (fs : List FileInfo) :
    ∀ (L : Ledger), ∀ f ∈ fs, (lookupL (initStatus L fs) f.path).isSome = true := by
  induction fs with
  | nil => intro L f hf; cases hf
  | cons g fs ih =>
    intro L f hf
    rcases List.mem_cons.mp hf with rfl | hf
    · unfold initStatus
      by_cases hg : (lookupL L f.path).isSome = true
      · rw [if_pos hg]; exact initStatus_keeps fs L f.path hg
      · rw [if_neg hg]
        refine initStatus_keeps fs _ f.path ?_
        rw [lookupL_append_of_none L _ f.path
          (by cases h : lookupL L f.path with
              | none => rfl
              | some e => rw [h] at hg; simp at hg)]
        simp [lookupL]
    · unfold initStatus
      exact ih _ f hf

/-- Seeding adds only zero counters, so the recorded total is unchanged:
the initial progress report sums exactly the loaded ledger's counters. -/
theorem initStatus_total (fs : List FileInfo) :
    ∀ L : Ledger, get_downloaded_total (initStatus L fs) = get_downloaded_total L := by
  induction fs with
  | nil => intro L; rfl
  | cons f fs ih =>
    intro L
    unfold initStatus
    by_cases hf : (lookupL L f.path).isSome = true
    · rw [if_pos hf]; exact ih L
    · rw [if_neg hf, ih]
      simp [get_downloaded_total]

/-- If every catalog path is already tracked, seeding is the identity. -/
theorem initStatus_eq_of_tracked (fs : List FileInfo) :
    ∀ L : Ledger, (∀ f ∈ fs, (lookupL L f.path).isSome = true) →
      initStatus L fs = L := by
  induction fs with
  | nil => intro L _; rfl
  | cons f fs ih =>
    intro L h
    unfold initStatus
    rw [if_pos (h f (List.mem_cons_self f fs))]
    exact ih L (fun g hg => h g (List.mem_cons_of_mem f hg))

/-- A file whose ledger entry is complete is skipped without any event. -/
theorem filesEvents_skip (srv : String → Nat) (total : Nat)
    (fs : List FileInfo) :
    ∀ st : Ledger, (∀ f ∈ fs, f.size ≤ memD st f.path) →
      filesEvents srv total st fs = ([], st) := by
  induction fs with
  | nil => intro st _; rfl
  | cons f fs ih =>
    intro st h
    have hskip := h f (List.mem_cons_self f fs)
    have hrest := ih st (fun g hg => h g (List.mem_cons_of_mem f hg))
    simp [filesEvents, perFileEvents, hskip, hrest]

/-- Network-request events of a trace. -/
def isNetRequest : Ev → Bool
  | .catalogReq => true
  | .fileReq _ _ => true
  | _ => false

/-- The ledger a fully downloaded catalog leaves behind. -/
def completeLedger (files : List FileInfo) : Ledger :=
  List.map (fun f => (f.path, ⟨f.size, f.size⟩)) files

/-- A fully downloaded ledger's recorded total is the catalog total. -/
theorem completeLedger_total (files : List FileInfo) :
    get_downloaded_total (completeLedger files) =
      (List.map (fun f => f.size) files).sum := by
  induction files with
  | nil => rfl
  | cons f fs ih => simp [completeLedger, get_downloaded_total] at *; omega

/-- C6 is FALSE as stated: on a catalog whose single file the ledger marks
complete (`downloaded = 12 ≥ 10 = declared`), re-invoking `download_game`
still performs one network request (the catalog fetch is unconditional) and
its immediate progress report says `bytesDone = 12 ≠ 10 = bytesTotal`. -/
theorem C6_counterexample :
    (∀ f ∈ ([⟨"a.bin", 10⟩] : List FileInfo), ∃ e,
      lookupL [("a.bin", (⟨10, 12⟩ : LedgerEntry))] f.path = some e ∧
      f.size ≤ e.downloaded) ∧
    ((download_game [⟨"a.bin", 10⟩] (fun _ => 10)
      [("a.bin", ⟨10, 12⟩)]).1.filter isNetRequest).length = 1 ∧
    (download_game [⟨"a.bin", 10⟩] (fun _ => 10)
      [("a.bin", ⟨10, 12⟩)]).1.get? 1 = some (.progress 12 10) ∧
    (12 : Nat) ≠ 10 := by
  refine ⟨?_, by decide, by decide, by decide⟩
  intro f hf
  rcases List.mem_singleton.mp hf with rfl
  exact ⟨⟨10, 12⟩, by decide, by decide⟩

/-- C6 amended: when every catalog entry is complete in the loaded ledger,
`download_game` performs exactly one network request — the unconditional
catalog fetch — and no file-download request; it immediately reports
`bytesDone = ` (sum of the ledger's recorded counters) against
`bytesTotal`, the two being equal when the ledger is precisely the fully
downloaded catalog. -/
theorem C6_complete_ledger_no_downloads (files : List FileInfo)
    (srv : String → Nat) (L0 : Ledger)
    (htot : (List.map (fun f => f.size) files).sum ≠ 0)
    (hdone : ∀ f ∈ files, ∃ e, lookupL L0 f.path = some e ∧
      f.size ≤ e.downloaded) :
    (download_game files srv L0).1 =
      [.catalogReq,
       .progress (get_downloaded_total L0) ((List.map (fun f => f.size) files).sum),
       .deleteLedger, .status "download complete"] ∧
    (download_game files srv L0).2 = true ∧
    ((download_game files srv L0).1.filter isNetRequest).length = 1 ∧
    (∀ p off, Ev.fileReq p off ∉ (download_game files srv L0).1) ∧
    (L0 = completeLedger files →
      get_downloaded_total L0 = (List.map (fun f => f.size) files).sum) := by
  have htracked : ∀ f ∈ files, (lookupL L0 f.path).isSome = true := by
    intro f hf
    rcases hdone f hf with ⟨e, he, _⟩
    rw [he]; rfl
  have hinit : initStatus L0 files = L0 := initStatus_eq_of_tracked files L0 htracked
  have hskip : filesEvents srv ((List.map (fun f => f.size) files).sum) L0 files
      = ([], L0) := by
    refine filesEvents_skip _ _ files L0 ?_
    intro f hf
    rcases hdone f hf with ⟨e, he, hle⟩
    simpa [memD, he] using hle
  have htr : (download_game files srv L0).1 =
      [.catalogReq,
       .progress (get_downloaded_total L0) ((List.map (fun f => f.size) files).sum),
       .deleteLedger, .status "download complete"] := by
    unfold download_game
    rw [if_neg htot]
    simp [hinit, hskip]
  refine ⟨htr, ?_, ?_, ?_, ?_⟩
  · unfold download_game
    rw [if_neg htot]
  · rw [htr]; rfl
  · intro p off hmem
    rw [htr] at hmem
    simp at hmem
  · intro hL
    rw [hL, completeLedger_total]

/-- Witness for C6 (amended): a one-file catalog with its exact complete
ledger; the run is the four-event trace with `bytesDone = bytesTotal = 2`
and a single network request. -/
theorem C6_complete_ledger_no_downloads_witness :
    (download_game [⟨"a.bin", 2⟩] (fun _ => 2) (completeLedger [⟨"a.bin", 2⟩])).1 =
      [.catalogReq, .progress 2 2, .deleteLedger, .status "download complete"] ∧
    ((download_game [⟨"a.bin", 2⟩] (fun _ => 2)
      (completeLedger [⟨"a.bin", 2⟩])).1.filter isNetRequest).length = 1 := by
  have h := C6_complete_ledger_no_downloads [⟨"a.bin", 2⟩] (fun _ => 2)
    (completeLedger [⟨"a.bin", 2⟩]) (by decide) ?_
  · have htot : get_downloaded_total (completeLedger [⟨"a.bin", 2⟩]) = 2 := by decide
    refine ⟨?_, h.2.2.1⟩
    have h1 := h.1
    rw [htot] at h1
    simpa using h1
  · intro f hf
    rcases List.mem_singleton.mp hf with rfl
    exact ⟨⟨2, 2⟩, by decide, by decide⟩

/-- C7 is FALSE as stated: the save is `open(progress_file, "w")` followed by
`json.dump` — no temporary file, no replace. A crash between the truncating
open and the completed dump leaves the ledger file unparseable, holding
neither the old nor the new mapping. -/
theorem C7_counterexample :
    parseLedger (runEvs ⟨fun _ => 1, [("a.bin", ⟨2, 2⟩)],
        .content [("a.bin", ⟨2, 1⟩)]⟩
      ((saveLedgerEvents [("a.bin", ⟨2, 2⟩)]).take 1)).disk = none ∧
    (runEvs ⟨fun _ => 1, [("a.bin", ⟨2, 2⟩)], .content [("a.bin", ⟨2, 1⟩)]⟩
      ((saveLedgerEvents [("a.bin", ⟨2, 2⟩)]).take 1)).disk ≠
      .content [("a.bin", ⟨2, 1⟩)] ∧
    (runEvs ⟨fun _ => 1, [("a.bin", ⟨2, 2⟩)], .content [("a.bin", ⟨2, 1⟩)]⟩
      ((saveLedgerEvents [("a.bin", ⟨2, 2⟩)]).take 1)).disk ≠
      .content [("a.bin", ⟨2, 2⟩)] := by
  refine ⟨by decide, by decide, by decide⟩

/-- C7 amended: the save truncates the ledger file in place and rewrites it
(never via a temporary file), so a crash mid-save can leave an unparseable
file — a third state besides old and new content; a completed save leaves
the new mapping, and the loader turns the unparseable state into the empty
mapping instead of failing, so the next load still succeeds. -/
theorem C7_save_not_atomic_load_recovers (s0 : DState) (L : Ledger) (k : Nat) :
    (runEvs s0 ((saveLedgerEvents L).take k)).disk ∈
      [s0.disk, LFile.invalid, LFile.content L] ∧
    (runEvs s0 (saveLedgerEvents L)).disk = .content L ∧
    loadLedger LFile.invalid = [] ∧
    loadLedger (LFile.content L) = L := by
  refine ⟨?_, rfl, rfl, rfl⟩
  match k with
  | 0 => simp [saveLedgerEvents, runEvs]
  | 1 => simp [saveLedgerEvents, runEvs, applyEv]
  | n + 2 =>
    have : (saveLedgerEvents L).take (n + 2) = saveLedgerEvents L := by
      simp [saveLedgerEvents]
    rw [this]
    simp [saveLedgerEvents, runEvs, applyEv]

/-- Events that touch neither a local file nor the in-memory counters. -/
def isQuiet : Ev → Bool
  | .write _ _ => false
  | .record _ _ => false
  | _ => true

/-- A quiet event leaves files and counters alone. -/
theorem applyEv_quiet (s : DState) (e : Ev) (h : isQuiet e = true) :
    (applyEv s e).localLen = s.localLen ∧ (applyEv s e).mem = s.mem := by
  cases e <;> simp_all [isQuiet, applyEv]

/-- Write-then-record discipline: every byte append is immediately followed
by the matching counter increment, and a counter increment appears nowhere
else (never record-then-write). This is the shape of every trace
`download_game` generates. -/
inductive WriteThenRecord : List Ev → Prop
  | nil : WriteThenRecord []
  | pair (p : String) (c : Nat) (rest : List Ev) :
      WriteThenRecord rest →
      WriteThenRecord (.write p c :: .record p c :: rest)
  | quiet (e : Ev) (rest : List Ev) :
      isQuiet e = true → WriteThenRecord rest → WriteThenRecord (e :: rest)

theorem WriteThenRecord.append {l1 l2 : List Ev} (h1 : WriteThenRecord l1)
    (h2 : WriteThenRecord l2) : WriteThenRecord (l1 ++ l2) := by
  induction h1 with
  | nil => exact h2
  | pair p c rest _ ih => exact .pair p c _ ih
  | quiet e rest hq _ ih => exact .quiet e _ hq ih

theorem lookupL_cons (k : String) (v : LedgerEntry) (L : Ledger) (q : String) :
    lookupL ((k, v) :: L) q = if k = q then some v else lookupL L q := rfl

theorem memD_cons (k : String) (v : LedgerEntry) (L : Ledger) (q : String) :
    memD ((k, v) :: L) q = if k = q then v.downloaded else memD L q := by
  unfold memD
  rw [lookupL_cons]
  by_cases h : k = q
  · rw [if_pos h, if_pos h]
    rfl
  · rw [if_neg h, if_neg h]

theorem bump_cons (k : String) (v : LedgerEntry) (L : Ledger) (p : String)
    (c : Nat) :
    bump ((k, v) :: L) p c =
      (if k = p then ((k : String), (⟨v.size, v.downloaded + c⟩ : LedgerEntry))
       else (k, v)) :: bump L p c := rfl

/-- Bumping one key changes only that key's counter, and only if present. -/
theorem memD_bump (L : Ledger) (p q : String) (c : Nat) :
    memD (bump L p c) q =
      if q = p ∧ (lookupL L p).isSome = true then memD L q + c
      else memD L q := by
  induction L with
  | nil => simp [bump, memD, lookupL]
  | cons e L ih =>
    obtain ⟨k, v⟩ := e
    rw [bump_cons]
    by_cases hkp : k = p
    · subst hkp
      rw [if_pos rfl]
      by_cases hkq : k = q
      · subst hkq
        rw [memD_cons, if_pos rfl,
          if_pos ⟨rfl, by rw [lookupL_cons, if_pos rfl]; rfl⟩,
          memD_cons, if_pos rfl]
      · have hqk : ¬ q = k := fun h => hkq h.symm
        rw [memD_cons, if_neg hkq, ih,
          if_neg (fun hc : q = k ∧ (lookupL L k).isSome = true => hqk hc.1),
          memD_cons, if_neg hkq,
          if_neg (fun hc : q = k ∧ (lookupL ((k, v) :: L) k).isSome = true =>
            hqk hc.1)]
    · rw [if_neg hkp, lookupL_cons, if_neg hkp]
      by_cases hkq : k = q
      · subst hkq
        rw [memD_cons, if_pos rfl, memD_cons, if_pos rfl,
          if_neg (fun hc : k = p ∧ (lookupL L p).isSome = true => hkp hc.1)]
      · rw [memD_cons, if_neg hkq, ih, memD_cons, if_neg hkq]

/-- Bumping preserves which keys are present. -/
theorem lookupL_bump_isSome (L : Ledger) (p q : String) (c : Nat) :
    (lookupL (bump L p c) q).isSome = (lookupL L q).isSome := by
  induction L with
  | nil => rfl
  | cons e L ih =>
    obtain ⟨k, v⟩ := e
    rw [bump_cons]
    by_cases hkp : k = p
    · rw [if_pos hkp, lookupL_cons, lookupL_cons]
      by_cases hkq : k = q
      · rw [if_pos hkq, if_pos hkq]
        rfl
      · rw [if_neg hkq, if_neg hkq, ih]
    · rw [if_neg hkp, lookupL_cons, lookupL_cons]
      by_cases hkq : k = q
      · rw [if_pos hkq, if_pos hkq]
      · rw [if_neg hkq, if_neg hkq, ih]

theorem runEvs_nil (s : DState) : runEvs s [] = s := rfl

theorem runEvs_cons (s : DState) (e : Ev) (l : List Ev) :
    runEvs s (e :: l) = runEvs (applyEv s e) l := rfl

/-- Prefix invariant: starting from a state where no counter is ahead of
its file, executing ANY prefix of a write-then-record trace keeps every
counter at or below the corresponding local file length — the dangerous
direction (ledger ahead of the file) never occurs, crash point or not. -/
theorem wtr_take_le {T : List Ev} (hB : WriteThenRecord T) :
    ∀ s : DState, (∀ p, memD s.mem p ≤ s.localLen p) →
      ∀ k p, memD (runEvs s (T.take k)).mem p ≤
        (runEvs s (T.take k)).localLen p := by
  induction hB with
  | nil =>
    intro s hs k p
    simpa [runEvs] using hs p
  | pair q c rest hrest ih =>
    intro s hs k p
    match k with
    | 0 => simpa [runEvs] using hs p
    | 1 =>
      rw [List.take_succ_cons, List.take_zero, runEvs_cons, runEvs_nil]
      show memD s.mem p ≤ (if p = q then s.localLen p + c else s.localLen p)
      by_cases hpq : p = q
      · rw [if_pos hpq]
        exact le_trans (hs p) (Nat.le_add_right _ _)
      · rw [if_neg hpq]
        exact hs p
    | k + 2 =>
      rw [List.take_succ_cons, List.take_succ_cons, runEvs_cons, runEvs_cons]
      refine ih _ ?_ k p
      intro r
      show memD (bump s.mem q c) r ≤
        (if r = q then s.localLen r + c else s.localLen r)
      rw [memD_bump]
      by_cases hrq : r = q
      · rw [if_pos hrq]
        by_cases hpres : (lookupL s.mem q).isSome = true
        · rw [if_pos ⟨hrq, hpres⟩]
          exact Nat.add_le_add_right (hs r) c
        · rw [if_neg (fun hc : r = q ∧ (lookupL s.mem q).isSome = true =>
            hpres hc.2)]
          exact le_trans (hs r) (Nat.le_add_right _ _)
      · rw [if_neg (fun hc : r = q ∧ (lookupL s.mem q).isSome = true =>
          hrq hc.1), if_neg hrq]
        exact hs r
  | quiet e rest hq hrest ih =>
    intro s hs k p
    match k with
    | 0 => simpa [runEvs] using hs p
    | k + 1 =>
      rw [List.take_succ_cons, runEvs_cons]
      refine ih _ ?_ k p
      intro r
      rw [(applyEv_quiet s e hq).1, (applyEv_quiet s e hq).2]
      exact hs r

/-- Full-run equality: if every counter starts equal to its file length and
every recorded path is a tracked ledger key, a complete write-then-record
trace restores the equality of counters and file lengths at its end (and,
by `wtr_take_le`, never lets a counter overtake its file in between). -/
theorem wtr_run_eq {T : List Ev} (hB : WriteThenRecord T) :
    ∀ s : DState, (∀ p, memD s.mem p = s.localLen p) →
      (∀ p c, Ev.record p c ∈ T → (lookupL s.mem p).isSome = true) →
      ∀ p, memD (runEvs s T).mem p = (runEvs s T).localLen p := by
  induction hB with
  | nil =>
    intro s hs _ p
    simpa [runEvs] using hs p
  | pair q c rest hrest ih =>
    intro s hs hrec p
    rw [runEvs_cons, runEvs_cons]
    have hq : (lookupL s.mem q).isSome = true :=
      hrec q c (by simp)
    refine ih _ ?_ ?_ p
    · intro r
      show memD (bump s.mem q c) r =
        (if r = q then s.localLen r + c else s.localLen r)
      rw [memD_bump]
      by_cases hrq : r = q
      · rw [if_pos ⟨hrq, hrq ▸ hq⟩, if_pos hrq, hs r]
      · rw [if_neg (fun hc : r = q ∧ (lookupL s.mem q).isSome = true =>
          hrq hc.1), if_neg hrq]
        exact hs r
    · intro r c2 hmem
      show (lookupL (bump s.mem q c) r).isSome = true
      rw [lookupL_bump_isSome]
      exact hrec r c2 (by simp [hmem])
  | quiet e rest hqe hrest ih =>
    intro s hs hrec p
    rw [runEvs_cons]
    refine ih _ ?_ ?_ p
    · intro r
      rw [(applyEv_quiet s e hqe).1, (applyEv_quiet s e hqe).2]
      exact hs r
    · intro r c2 hmem
      rw [(applyEv_quiet s e hqe).2]
      exact hrec r c2 (by simp [hmem])

/-- The chunk loop emits write-then-record triples. -/
theorem chunkEvents_wtr (total : Nat) (p : String) (cs : List Nat) :
    ∀ st : Ledger, WriteThenRecord (chunkEvents total p st cs).1 := by
  induction cs with
  | nil => intro st; exact .nil
  | cons c cs ih =>
    intro st
    exact .pair p c _ (.quiet _ _ rfl (ih (bump st p c)))

/-- Every record event of the chunk loop carries the file's path. -/
theorem chunkEvents_record_path (total : Nat) (p : String) (cs : List Nat) :
    ∀ (st : Ledger) (q : String) (c : Nat),
      Ev.record q c ∈ (chunkEvents total p st cs).1 → q = p := by
  induction cs with
  | nil => intro st q c h; cases h
  | cons c cs ih =>
    intro st q c2 h
    rcases h with _ | ⟨_, h⟩
    · rcases h with _ | ⟨_, h⟩
      · rfl
      · rcases h with _ | ⟨_, h⟩
        exact ih _ q c2 h

/-- The chunk loop only bumps counters: keys are preserved. -/
theorem chunkEvents_keys (total : Nat) (p : String) (cs : List Nat) :
    ∀ (st : Ledger) (q : String),
      (lookupL (chunkEvents total p st cs).2 q).isSome =
        (lookupL st q).isSome := by
  induction cs with
  | nil => intro st q; rfl
  | cons c cs ih =>
    intro st q
    show (lookupL (chunkEvents total p (bump st p c) cs).2 q).isSome = _
    rw [ih (bump st p c) q, lookupL_bump_isSome]

/-- One file's events are write-then-record. -/
theorem perFileEvents_wtr (srv : String → Nat) (total : Nat) (st : Ledger)
    (f : FileInfo) : WriteThenRecord (perFileEvents srv total st f).1 := by
  unfold perFileEvents
  by_cases h : f.size ≤ memD st f.path
  · rw [if_pos h]; exact .nil
  · rw [if_neg h]
    refine .quiet _ _ rfl (.quiet _ _ rfl ?_)
    exact WriteThenRecord.append (chunkEvents_wtr total f.path _ st)
      (.quiet _ _ rfl (.quiet _ _ rfl .nil))

/-- Every record event of one file's loop iteration carries that file's
path. -/
theorem perFileEvents_record_path (srv : String → Nat) (total : Nat)
    (st : Ledger) (f : FileInfo) (q : String) (c : Nat)
    (h : Ev.record q c ∈ (perFileEvents srv total st f).1) : q = f.path := by
  unfold perFileEvents at h
  by_cases hskip : f.size ≤ memD st f.path
  · rw [if_pos hskip] at h; cases h
  · rw [if_neg hskip] at h
    rcases h with _ | ⟨_, h⟩
    rcases h with _ | ⟨_, h⟩
    rcases List.mem_append.mp h with h | h
    · exact chunkEvents_record_path total f.path _ st q c h
    · simp [saveLedgerEvents] at h

/-- One file's loop iteration preserves ledger keys. -/
theorem perFileEvents_keys (srv : String → Nat) (total : Nat) (st : Ledger)
    (f : FileInfo) (q : String) :
    (lookupL (perFileEvents srv total st f).2 q).isSome =
      (lookupL st q).isSome := by
  unfold perFileEvents
  by_cases hskip : f.size ≤ memD st f.path
  · rw [if_pos hskip]
  · rw [if_neg hskip]
    exact chunkEvents_keys total f.path _ st q

/-- The whole download loop is write-then-record. -/
theorem filesEvents_wtr (srv : String → Nat) (total : Nat)
    (fs : List FileInfo) :
    ∀ st : Ledger, WriteThenRecord (filesEvents srv total st fs).1 := by
  induction fs with
  | nil => intro st; exact .nil
  | cons f fs ih =>
    intro st
    exact WriteThenRecord.append (perFileEvents_wtr srv total st f)
      (ih (perFileEvents srv total st f).2)

/-- Every record event in the download loop names a path tracked by the
ledger the loop starts from, provided all the loop's files are tracked. -/
theorem filesEvents_record_tracked (srv : String → Nat) (total : Nat)
    (fs : List FileInfo) :
    ∀ st : Ledger, (∀ f ∈ fs, (lookupL st f.path).isSome = true) →
      ∀ (q : String) (c : Nat),
        Ev.record q c ∈ (filesEvents srv total st fs).1 →
        (lookupL st q).isSome = true := by
  induction fs with
  | nil => intro st _ q c h; cases h
  | cons f fs ih =>
    intro st htracked q c h
    rcases List.mem_append.mp h with h | h
    · rw [perFileEvents_record_path srv total st f q c h]
      exact htracked f (List.mem_cons_self f fs)
    · have h2 := ih (perFileEvents srv total st f).2
        (fun g hg => by
          rw [perFileEvents_keys]
          exact htracked g (List.mem_cons_of_mem f hg)) q c h
      rw [perFileEvents_keys] at h2
      exact h2

/-- The complete `download_game` trace obeys write-then-record. -/
theorem download_game_wtr (files : List FileInfo) (srv : String → Nat)
    (L0 : Ledger) : WriteThenRecord (download_game files srv L0).1 := by
  unfold download_game
  by_cases htot : (List.map (fun f => f.size) files).sum = 0
  · rw [if_pos htot]
    exact .quiet _ _ rfl .nil
  · rw [if_neg htot]
    refine .quiet _ _ rfl (.quiet _ _ rfl ?_)
    exact WriteThenRecord.append
      (filesEvents_wtr srv _ files (initStatus L0 files))
      (.quiet _ _ rfl (.quiet _ _ rfl .nil))

/-- Every record in a `download_game` trace names a key of the seeded
ledger. -/
theorem download_game_record_tracked (files : List FileInfo)
    (srv : String → Nat) (L0 : Ledger) (q : String) (c : Nat)
    (h : Ev.record q c ∈ (download_game files srv L0).1) :
    (lookupL (initStatus L0 files) q).isSome = true := by
  unfold download_game at h
  by_cases htot : (List.map (fun f => f.size) files).sum = 0
  · rw [if_pos htot] at h
    simp at h
  · rw [if_neg htot] at h
    simp only [List.cons_append, List.mem_cons] at h
    rcases h with h | h | h
    · cases h
    · cases h
    · rcases List.mem_append.mp h with h | h
      · exact filesEvents_record_tracked srv _ files (initStatus L0 files)
          (fun f hf => initStatus_keys files L0 f hf) q c h
      · simp at h

/-- C8 is FALSE as stated for the crash case: the ledger is persisted only
after a file completes (`json.dump` at the end of the loop body), so a crash
after a chunk is appended — here right after the chunk's progress report,
seven events into the run — leaves the local file holding 2 bytes while the
on-disk ledger is still absent; reloading it records 0 bytes for the file:
the file length and the recorded counter differ across the crash. -/
theorem C8_counterexample :
    (runEvs ⟨fun _ => 0, initStatus [] [⟨"a.bin", 2⟩], .absent⟩
      (((download_game [⟨"a.bin", 2⟩] (fun _ => 2) []).1).take 7)).localLen
        "a.bin" = 2 ∧
    (runEvs ⟨fun _ => 0, initStatus [] [⟨"a.bin", 2⟩], .absent⟩
      (((download_game [⟨"a.bin", 2⟩] (fun _ => 2) []).1).take 7)).disk =
      .absent ∧
    memD (initStatus (loadLedger .absent) [⟨"a.bin", 2⟩]) "a.bin" = 0 ∧
    (2 : Nat) ≠ 0 := by
  refine ⟨by decide, by decide, by decide, by decide⟩

/-- C8 amended: within one run the code does append each chunk before
recording it (`f_out.write(chunk)` precedes the counter increment — the
trace satisfies `WriteThenRecord`, never record-then-write), so starting
from matching file lengths and counters, no crash prefix ever leaves a
counter ahead of its file, and a completed run restores exact equality of
every file length with its in-memory counter. Across a crash, however, only
the ledger persisted at the last file boundary survives, so equality with
the on-disk ledger can be lost (see the counterexample). -/
theorem C8_write_then_record (files : List FileInfo) (srv : String → Nat)
    (L0 : Ledger) (ll0 : String → Nat) (d0 : LFile)
    (h0 : ∀ p, memD (initStatus L0 files) p = ll0 p) :
    WriteThenRecord (download_game files srv L0).1 ∧
    (∀ k p,
      memD (runEvs ⟨ll0, initStatus L0 files, d0⟩
          (((download_game files srv L0).1).take k)).mem p ≤
        (runEvs ⟨ll0, initStatus L0 files, d0⟩
          (((download_game files srv L0).1).take k)).localLen p) ∧
    (∀ p,
      memD (runEvs ⟨ll0, initStatus L0 files, d0⟩
          ((download_game files srv L0).1)).mem p =
        (runEvs ⟨ll0, initStatus L0 files, d0⟩
          ((download_game files srv L0).1)).localLen p) := by
  have hB := download_game_wtr files srv L0
  refine ⟨hB, ?_, ?_⟩
  · exact wtr_take_le hB ⟨ll0, initStatus L0 files, d0⟩
      (fun p => (h0 p).le) 
  · exact wtr_run_eq hB ⟨ll0, initStatus L0 files, d0⟩ h0
      (fun p c h => download_game_record_tracked files srv L0 p c h)

/-- Witness for C8 (amended): the one-file run from a fresh state; after
the 7-event crash prefix the counter (2) does not exceed the file length
(2), and the completed run ends with counter = file length. -/
theorem C8_write_then_record_witness :
    WriteThenRecord (download_game [⟨"a.bin", 2⟩] (fun _ => 2) []).1 ∧
    memD (runEvs ⟨fun _ => 0, initStatus [] [⟨"a.bin", 2⟩], .absent⟩
        (((download_game [⟨"a.bin", 2⟩] (fun _ => 2) []).1).take 7)).mem
      "a.bin" ≤
      (runEvs ⟨fun _ => 0, initStatus [] [⟨"a.bin", 2⟩], .absent⟩
        (((download_game [⟨"a.bin", 2⟩] (fun _ => 2) []).1).take 7)).localLen
      "a.bin" ∧
    memD (runEvs ⟨fun _ => 0, initStatus [] [⟨"a.bin", 2⟩], .absent⟩
        ((download_game [⟨"a.bin", 2⟩] (fun _ => 2) []).1)).mem "a.bin" =
      (runEvs ⟨fun _ => 0, initStatus [] [⟨"a.bin", 2⟩], .absent⟩
        ((download_game [⟨"a.bin", 2⟩] (fun _ => 2) []).1)).localLen
      "a.bin" := by
  have h := C8_write_then_record [⟨"a.bin", 2⟩] (fun _ => 2) [] (fun _ => 0)
    .absent ?_
  · exact ⟨h.1, h.2.1 7 "a.bin", h.2.2 "a.bin"⟩
  · intro p
    show memD [("a.bin", ⟨2, 0⟩)] p = 0
    rw [memD_cons]
    by_cases hp : "a.bin" = p
    · rw [if_pos hp]
    · rw [if_neg hp]
      rfl

/-- The progress events of a trace all report `bytesDone > bytesTotal`. -/
def progressExceedsTotal : Ev → Bool
  | .progress d t => decide (t < d)
  | _ => true

/-- C10: the initial progress report sums `downloaded` over EVERY entry of
the loaded ledger — seeding only adds zero counters, so the reported
`bytesDone` is exactly the loaded ledger's grand total, stale entries
included; and on a concrete catalog `[a.bin: 2]` with a stale 100-byte
ledger entry, every single progress report of the run (the initial one and
each per-chunk one) says `bytesDone > bytesTotal`. -/
theorem C10_stale_entries_counted (files : List FileInfo)
    (srv : String → Nat) (L0 : Ledger)
    (htot : (List.map (fun f => f.size) files).sum ≠ 0) :
    (download_game files srv L0).1.get? 1 =
      some (.progress (get_downloaded_total L0)
        ((List.map (fun f => f.size) files).sum)) ∧
    ((download_game [⟨"a.bin", 2⟩] (fun _ => 2)
      [("stale.bin", ⟨100, 100⟩)]).1.all progressExceedsTotal = true) := by
  constructor
  · unfold download_game
    rw [if_neg htot]
    simp [initStatus_total]
  · decide

/-- Witness for C10: the one-file catalog with a stale ledger entry; the
initial report is `(100, 2)` with `100 > 2`. -/
theorem C10_stale_entries_counted_witness :
    (download_game [⟨"a.bin", 2⟩] (fun _ => 2)
      [("stale.bin", ⟨100, 100⟩)]).1.get? 1 = some (.progress 100 2) ∧
    (100 : Nat) > 2 := by
  have h := (C10_stale_entries_counted [⟨"a.bin", 2⟩] (fun _ => 2)
    [("stale.bin", ⟨100, 100⟩)] (by decide)).1
  refine ⟨?_, by decide⟩
  have hgdt : get_downloaded_total [("stale.bin", (⟨100, 100⟩ : LedgerEntry))]
      = 100 := by decide
  rw [hgdt] at h
  simpa using h
